import Mathlib

/-!
Verification of the natural-language specification of the iteration
capability layer `src/tiny_dnn/xtensor/xiterable.hpp` (classes
`xt::xconst_iterable` and `xt::xiterable`).

The layer under verification is a thin adaptor: every entry point
(`begin`, `end`, `rbegin`, `rend`, their `c`-, `cr`- and `storage_`
variants, plain and broadcast) forwards to the derived container's stepper
factories `stepper_begin(shape)` / `stepper_end(shape, layout)` and wraps
the resulting stepper into an `xiterator` (possibly inside a
`std::reverse_iterator`).  The collaborators (`xiterator`, the steppers,
`layout_type`) live in `xiterator.hpp`, which is outside the sources at
hand; they are modelled from the spec (sections 3, 4.3 and 4.4), and the
traversal claims take the Stepper contract of section 4.3 as hypotheses.
-/

namespace xt

/-- Modelled from the spec: `layout_type` (defined in `xiterator.hpp`,
not among the sources) is "an enumerated traversal order (e.g.
row-major, column-major)".  The two orders named by the spec are
modelled; every definition and theorem below is parametric in the
layout, so nothing depends on the exact constructor set. -/
inductive layout_type where
  | row_major
  | column_major
deriving DecidableEq, Repr

/-- A shape is an ordered sequence of non-negative dimension extents
(spec section 3). -/
abbrev shape_t : Type := List Nat

/-- Number of elements of a shape: the product of its extents. -/
def num_elements (s : shape_t) : Nat := s.prod

/-- A logical position `p` is a valid multi-index for shape `s` when it
has one coordinate per dimension, each strictly below the extent. -/
def is_valid_index : shape_t → List Nat → Bool
  | [], [] => true
  | n :: s, i :: p => decide (i < n) && is_valid_index s p
  | _, _ => false

/-- Row-major enumeration of the logical positions of a shape: the last
index varies fastest. -/
def row_enum : shape_t → List (List Nat)
  | [] => [[]]
  | n :: s => (List.range n).flatMap (fun i => (row_enum s).map (i :: ·))

/-- Column-major enumeration of the logical positions of a shape: the
first index varies fastest. -/
def col_enum : shape_t → List (List Nat)
  | [] => [[]]
  | n :: s => (col_enum s).flatMap (fun p => (List.range n).map (· :: p))

/-- The order in which positions of shape `s` are visited under a given
layout (spec sections 3 and 8). -/
def layout_enum (s : shape_t) : layout_type → List (List Nat)
  | layout_type.row_major => row_enum s
  | layout_type.column_major => col_enum s

/-- The contract required from a derived container `D` adopting the
capability (spec section 4.3): its own shape and the stepper factories.
The C++ factories are member functions overloaded on the constness of
the container; the mutable overloads produce steppers of type `σ`, the
const overloads produce const steppers of type `cσ`.  Note the factory
`stepper_begin` receives only a shape, never a layout; this mirrors the
calls `derived_cast().stepper_begin(shape)` and
`derived_cast().stepper_end(shape, l)` in `xiterable.hpp`. -/
structure container (σ cσ : Type) where
  shape : shape_t
  stepper_begin : shape_t → σ
  stepper_end : shape_t → layout_type → σ
  cstepper_begin : shape_t → cσ
  cstepper_end : shape_t → layout_type → cσ

/-- Modelled from the spec: the Directional Iterator `xiterator`
(defined in `xiterator.hpp`, not among the sources) is the value
"{Stepper, non-owning Shape reference, Layout, direction}" (spec
section 3).  The layout is a type-level parameter, as in the C++
template; the shape reference is modelled by the referenced shape value;
`reverse` is the boolean third constructor argument visible at every
construction site in `xiterable.hpp`. -/
structure xiterator (σ : Type) (L : layout_type) where
  stepper : σ
  shape : shape_t
  reverse : Bool

/-- Modelled from the spec: the Reverse Adaptor (`std::reverse_iterator`
in the C++ sources) "wraps a Directional Iterator" (spec sections 3
and 4.4). -/
structure reverse_iterator (σ : Type) (L : layout_type) where
  base : xiterator σ L

/-- The Reverse Adaptor applied to a forward iterator. -/
def mk_reverse {σ : Type} {L : layout_type} (it : xiterator σ L) :
    reverse_iterator σ L := ⟨it⟩

/-- Modelled from the spec: iterator equality.  Per section 4.3 stepper
equality holds iff both steppers were built from equal (shape, layout)
and advanced the same number of steps, and per section 4.4 iterator
equality is defined only for iterators of the same (shape reference,
layout) construction; exhaustion "is detected purely by equality
comparison against `end`".  Two iterators are equal when they hold equal
steppers over the same driving shape (same layout being enforced by the
type).  The internal direction flag is construction bookkeeping, not
logical position. -/
def iter_eq {σ : Type} {L : layout_type} (a b : xiterator σ L) : Prop :=
  a.stepper = b.stepper ∧ a.shape = b.shape

/-- Equality of Reverse Adaptors: equality of the wrapped iterators. -/
def rev_eq {σ : Type} {L : layout_type} (a b : reverse_iterator σ L) : Prop :=
  iter_eq a.base b.base

/-- Modelled from the spec: single-step advancement of a Directional
Iterator delegates to the Stepper's advance-one-step (spec sections 3
and 4.4); the advance function `adv` of the opaque stepper is a
parameter, as the stepper algorithm is an external collaborator. -/
def iter_adv {σ : Type} {L : layout_type} (adv : σ → σ) (it : xiterator σ L) :
    xiterator σ L :=
  ⟨adv it.stepper, it.shape, it.reverse⟩

/-- The sequence of the first `n` dereferences of a forward traversal
starting at `it`, under stepper advance `adv` and dereference `deref`. -/
def traverse {σ α : Type} {L : layout_type} (adv : σ → σ) (deref : σ → α)
    (n : Nat) (it : xiterator σ L) : List α :=
  (List.range n).map (fun i => deref ((iter_adv adv)^[i] it).stepper)

/-- Modelled from the spec: advancing a Reverse Adaptor "decrements the
underlying cursor's logical position instead of incrementing" (spec
section 3); `prev` is the stepper's one-step decrement. -/
def rev_adv {σ : Type} {L : layout_type} (prev : σ → σ)
    (r : reverse_iterator σ L) : reverse_iterator σ L :=
  ⟨iter_adv prev r.base⟩

/-- Modelled from the spec: dereferencing a Reverse Adaptor "reads one
step behind its held position" (spec section 3). -/
def rev_deref {σ α : Type} {L : layout_type} (prev : σ → σ) (deref : σ → α)
    (r : reverse_iterator σ L) : α :=
  deref (prev r.base.stepper)

/-- The sequence of the first `n` dereferences of a reverse traversal
starting at the Reverse Adaptor `r`. -/
def rev_traverse {σ α : Type} {L : layout_type} (prev : σ → σ) (deref : σ → α)
    (n : Nat) (r : reverse_iterator σ L) : List α :=
  (List.range n).map (fun i => rev_deref prev deref ((rev_adv prev)^[i] r))

namespace xconst_iterable

variable {σ cσ : Type}

/-- `xconst_iterable::get_stepper_begin(shape)`: forwards to the derived
container's const `stepper_begin`. -/
def get_stepper_begin (d : container σ cσ) (s : shape_t) : cσ :=
  d.cstepper_begin s

/-- `xconst_iterable::get_stepper_end(shape, l)`: forwards to the
derived container's const `stepper_end`. -/
def get_stepper_end (d : container σ cσ) (s : shape_t) (l : layout_type) : cσ :=
  d.cstepper_end s l

/-- `xconst_iterable::get_shape()`: the derived container's own shape. -/
def get_shape (d : container σ cσ) : shape_t :=
  d.shape

/-- `xconst_iterable::get_cbegin<L>(reverse)`: builds a const layout
iterator from a stepper at the begin position over the container's own
shape. -/
def get_cbegin (d : container σ cσ) (L : layout_type) (reverse : Bool) :
    xiterator cσ L :=
  ⟨get_stepper_begin d (get_shape d), get_shape d, reverse⟩

/-- `xconst_iterable::get_cend<L>(reverse)`: builds a const layout
iterator from a stepper at the end position over the container's own
shape, under layout `L`. -/
def get_cend (d : container σ cσ) (L : layout_type) (reverse : Bool) :
    xiterator cσ L :=
  ⟨get_stepper_end d (get_shape d) L, get_shape d, reverse⟩

/-- `xconst_iterable::get_cbegin<S, L>(shape, reverse)`: broadcast
variant, over the caller-supplied shape. -/
def get_cbegin_s (d : container σ cσ) (s : shape_t) (L : layout_type)
    (reverse : Bool) : xiterator cσ L :=
  ⟨get_stepper_begin d s, s, reverse⟩

/-- `xconst_iterable::get_cend<S, L>(shape, reverse)`: broadcast
variant, over the caller-supplied shape. -/
def get_cend_s (d : container σ cσ) (s : shape_t) (L : layout_type)
    (reverse : Bool) : xiterator cσ L :=
  ⟨get_stepper_end d s L, s, reverse⟩

/-- `xconst_iterable::cbegin<L>()`. -/
def cbegin (d : container σ cσ) (L : layout_type) : xiterator cσ L :=
  get_cbegin d L false

/-- `xconst_iterable::cend<L>()`. -/
def cend (d : container σ cσ) (L : layout_type) : xiterator cσ L :=
  get_cend d L false

/-- `xconst_iterable::begin<L>() const`: returns `cbegin<L>()`. -/
def begin (d : container σ cσ) (L : layout_type) : xiterator cσ L :=
  cbegin d L

/-- `xconst_iterable::end<L>() const`: returns `cend<L>()`. -/
def «end» (d : container σ cσ) (L : layout_type) : xiterator cσ L :=
  cend d L

/-- `xconst_iterable::crbegin<L>()`: the Reverse Adaptor around
`get_cend<L>(true)`. -/
def crbegin (d : container σ cσ) (L : layout_type) : reverse_iterator cσ L :=
  mk_reverse (get_cend d L true)

/-- `xconst_iterable::crend<L>()`: the Reverse Adaptor around
`get_cbegin<L>(true)`. -/
def crend (d : container σ cσ) (L : layout_type) : reverse_iterator cσ L :=
  mk_reverse (get_cbegin d L true)

/-- `xconst_iterable::rbegin<L>() const`: returns `crbegin<L>()`. -/
def rbegin (d : container σ cσ) (L : layout_type) : reverse_iterator cσ L :=
  crbegin d L

/-- `xconst_iterable::rend<L>() const`: returns `crend<L>()`. -/
def rend (d : container σ cσ) (L : layout_type) : reverse_iterator cσ L :=
  crend d L

/-- `xconst_iterable::cbegin<S, L>(shape)`: broadcast overload. -/
def cbegin_s (d : container σ cσ) (s : shape_t) (L : layout_type) :
    xiterator cσ L :=
  get_cbegin_s d s L false

/-- `xconst_iterable::cend<S, L>(shape)`: broadcast overload. -/
def cend_s (d : container σ cσ) (s : shape_t) (L : layout_type) :
    xiterator cσ L :=
  get_cend_s d s L false

/-- `xconst_iterable::begin<S, L>(shape) const`: returns
`cbegin<S, L>(shape)`. -/
def begin_s (d : container σ cσ) (s : shape_t) (L : layout_type) :
    xiterator cσ L :=
  cbegin_s d s L

/-- `xconst_iterable::end<S, L>(shape) const`: returns
`cend<S, L>(shape)`. -/
def end_s (d : container σ cσ) (s : shape_t) (L : layout_type) :
    xiterator cσ L :=
  cend_s d s L

/-- `xconst_iterable::crbegin<S, L>(shape)`: the Reverse Adaptor around
`get_cend<S, L>(shape, true)`. -/
def crbegin_s (d : container σ cσ) (s : shape_t) (L : layout_type) :
    reverse_iterator cσ L :=
  mk_reverse (get_cend_s d s L true)

/-- `xconst_iterable::crend<S, L>(shape)`: the Reverse Adaptor around
`get_cbegin<S, L>(shape, true)`. -/
def crend_s (d : container σ cσ) (s : shape_t) (L : layout_type) :
    reverse_iterator cσ L :=
  mk_reverse (get_cbegin_s d s L true)

/-- `xconst_iterable::rbegin<S, L>(shape) const`: returns
`crbegin<S, L>(shape)`. -/
def rbegin_s (d : container σ cσ) (s : shape_t) (L : layout_type) :
    reverse_iterator cσ L :=
  crbegin_s d s L

/-- `xconst_iterable::rend<S, L>(shape) const`: returns
`crend<S, L>(shape)`. -/
def rend_s (d : container σ cσ) (s : shape_t) (L : layout_type) :
    reverse_iterator cσ L :=
  crend_s d s L

/-- `xconst_iterable::storage_begin<L>() const`: returns `cbegin<L>()`. -/
def storage_begin (d : container σ cσ) (L : layout_type) : xiterator cσ L :=
  cbegin d L

/-- `xconst_iterable::storage_end<L>() const`: returns `cend<L>()`. -/
def storage_end (d : container σ cσ) (L : layout_type) : xiterator cσ L :=
  cend d L

/-- `xconst_iterable::storage_cbegin<L>()`: returns `cbegin<L>()`. -/
def storage_cbegin (d : container σ cσ) (L : layout_type) : xiterator cσ L :=
  cbegin d L

/-- `xconst_iterable::storage_cend<L>()`: returns `cend<L>()`. -/
def storage_cend (d : container σ cσ) (L : layout_type) : xiterator cσ L :=
  cend d L

/-- `xconst_iterable::storage_rbegin<L>() const`: returns `crbegin<L>()`. -/
def storage_rbegin (d : container σ cσ) (L : layout_type) :
    reverse_iterator cσ L :=
  crbegin d L

/-- `xconst_iterable::storage_rend<L>() const`: returns `crend<L>()`. -/
def storage_rend (d : container σ cσ) (L : layout_type) :
    reverse_iterator cσ L :=
  crend d L

/-- `xconst_iterable::storage_crbegin<L>()`: returns `crbegin<L>()`. -/
def storage_crbegin (d : container σ cσ) (L : layout_type) :
    reverse_iterator cσ L :=
  crbegin d L

/-- `xconst_iterable::storage_crend<L>()`: returns `crend<L>()`. -/
def storage_crend (d : container σ cσ) (L : layout_type) :
    reverse_iterator cσ L :=
  crend d L

end xconst_iterable

namespace xiterable

variable {σ cσ : Type}

/-- `xiterable::get_stepper_begin(shape)` (non-const overload):
forwards to the derived container's mutable `stepper_begin`. -/
def get_stepper_begin (d : container σ cσ) (s : shape_t) : σ :=
  d.stepper_begin s

/-- `xiterable::get_stepper_end(shape, l)` (non-const overload):
forwards to the derived container's mutable `stepper_end`. -/
def get_stepper_end (d : container σ cσ) (s : shape_t) (l : layout_type) : σ :=
  d.stepper_end s l

/-- `xiterable::get_begin<L>(reverse)`: builds a mutable layout iterator
from a stepper at the begin position over the container's own shape. -/
def get_begin (d : container σ cσ) (L : layout_type) (reverse : Bool) :
    xiterator σ L :=
  ⟨get_stepper_begin d (xconst_iterable.get_shape d),
    xconst_iterable.get_shape d, reverse⟩

/-- `xiterable::get_end<L>(reverse)`: builds a mutable layout iterator
from a stepper at the end position over the container's own shape. -/
def get_end (d : container σ cσ) (L : layout_type) (reverse : Bool) :
    xiterator σ L :=
  ⟨get_stepper_end d (xconst_iterable.get_shape d) L,
    xconst_iterable.get_shape d, reverse⟩

/-- `xiterable::get_begin<S, L>(shape, reverse)`: broadcast variant. -/
def get_begin_s (d : container σ cσ) (s : shape_t) (L : layout_type)
    (reverse : Bool) : xiterator σ L :=
  ⟨get_stepper_begin d s, s, reverse⟩

/-- `xiterable::get_end<S, L>(shape, reverse)`: broadcast variant. -/
def get_end_s (d : container σ cσ) (s : shape_t) (L : layout_type)
    (reverse : Bool) : xiterator σ L :=
  ⟨get_stepper_end d s L, s, reverse⟩

/-- `xiterable::begin<L>()` (mutable): returns `get_begin<L>(false)`. -/
def begin (d : container σ cσ) (L : layout_type) : xiterator σ L :=
  get_begin d L false

/-- `xiterable::end<L>()` (mutable): returns `get_end<L>(false)`. -/
def «end» (d : container σ cσ) (L : layout_type) : xiterator σ L :=
  get_end d L false

/-- `xiterable::rbegin<L>()` (mutable): the Reverse Adaptor around
`get_end<L>(true)`. -/
def rbegin (d : container σ cσ) (L : layout_type) : reverse_iterator σ L :=
  mk_reverse (get_end d L true)

/-- `xiterable::rend<L>()` (mutable): the Reverse Adaptor around
`get_begin<L>(true)`. -/
def rend (d : container σ cσ) (L : layout_type) : reverse_iterator σ L :=
  mk_reverse (get_begin d L true)

/-- `xiterable::begin<S, L>(shape)` (mutable broadcast). -/
def begin_s (d : container σ cσ) (s : shape_t) (L : layout_type) :
    xiterator σ L :=
  get_begin_s d s L false

/-- `xiterable::end<S, L>(shape)` (mutable broadcast). -/
def end_s (d : container σ cσ) (s : shape_t) (L : layout_type) :
    xiterator σ L :=
  get_end_s d s L false

/-- `xiterable::rbegin<S, L>(shape)` (mutable broadcast): the Reverse
Adaptor around `get_end<S, L>(shape, true)`. -/
def rbegin_s (d : container σ cσ) (s : shape_t) (L : layout_type) :
    reverse_iterator σ L :=
  mk_reverse (get_end_s d s L true)

/-- `xiterable::rend<S, L>(shape)` (mutable broadcast): the Reverse
Adaptor around `get_begin<S, L>(shape, true)`. -/
def rend_s (d : container σ cσ) (s : shape_t) (L : layout_type) :
    reverse_iterator σ L :=
  mk_reverse (get_begin_s d s L true)

/-- `xiterable::storage_begin<L>()` (mutable): returns `begin<L>()`. -/
def storage_begin (d : container σ cσ) (L : layout_type) : xiterator σ L :=
  begin d L

/-- `xiterable::storage_end<L>()` (mutable): returns `end<L>()`. -/
def storage_end (d : container σ cσ) (L : layout_type) : xiterator σ L :=
  «end» d L

/-- `xiterable::storage_rbegin<L>()` (mutable): returns `rbegin<L>()`. -/
def storage_rbegin (d : container σ cσ) (L : layout_type) :
    reverse_iterator σ L :=
  rbegin d L

/-- `xiterable::storage_rend<L>()` (mutable): returns `rend<L>()`. -/
def storage_rend (d : container σ cσ) (L : layout_type) :
    reverse_iterator σ L :=
  rend d L

end xiterable

/-- A concrete 2-by-3 container whose steppers are their advance counts:
the factories place begin at count 0 and end at the element count of the
driving shape. -/
def cEx : container Nat Nat where
  shape := [2, 3]
  stepper_begin := fun _ => 0
  stepper_end := fun s _ => num_elements s
  cstepper_begin := fun _ => 0
  cstepper_end := fun s _ => num_elements s

/-- A container with the same stepper factories as `cEx` but a different
own shape. -/
def cEx2 : container Nat Nat :=
  { cEx with shape := [7] }

/-- Row-major position of advance count `k` in shape `[2, 3]`. -/
def pos23 (k : Nat) : List Nat := [k / 3, k % 3]

/-- Iterating the iterator's advance `n` times advances the stepper `n`
times and leaves the shape and direction flag untouched. -/
theorem iter_adv_iterate {σ : Type} {L : layout_type} (adv : σ → σ)
    (it : xiterator σ L) (n : Nat) :
    (iter_adv adv)^[n] it = ⟨adv^[n] it.stepper, it.shape, it.reverse⟩ := by
  induction n with
  | zero => rfl
  | succ n ih =>
      rw [Function.iterate_succ_apply', ih, Function.iterate_succ_apply']
      rfl

/-- Iterating the Reverse Adaptor's advance `n` times applies the
stepper decrement `n` times to the wrapped iterator's stepper. -/
theorem rev_adv_iterate {σ : Type} {L : layout_type} (prev : σ → σ)
    (r : reverse_iterator σ L) (n : Nat) :
    (rev_adv prev)^[n] r
      = ⟨⟨prev^[n] r.base.stepper, r.base.shape, r.base.reverse⟩⟩ := by
  induction n with
  | zero => rfl
  | succ n ih =>
      rw [Function.iterate_succ_apply', ih, Function.iterate_succ_apply']
      rfl

/-- A forward traversal dereferences the successive stepper states. -/
theorem traverse_eq_map {σ α : Type} {L : layout_type} (adv : σ → σ)
    (deref : σ → α) (n : Nat) (it : xiterator σ L) :
    traverse adv deref n it
      = (List.range n).map (fun i => deref (adv^[i] it.stepper)) := by
  unfold traverse
  exact List.map_congr_left (fun i _ => by rw [iter_adv_iterate])

/-- A reverse traversal dereferences one step behind the successively
decremented stepper states of the wrapped iterator. -/
theorem rev_traverse_eq_map {σ α : Type} {L : layout_type} (prev : σ → σ)
    (deref : σ → α) (n : Nat) (r : reverse_iterator σ L) :
    rev_traverse prev deref n r
      = (List.range n).map
          (fun i => deref (prev (prev^[i] r.base.stepper))) := by
  unfold rev_traverse
  exact List.map_congr_left (fun i _ => by rw [rev_adv_iterate]; rfl)

/-- When `prev` undoes `adv`, decrementing `j ≤ N` times from the state
reached by `N` advances lands on the state reached by `N - j` advances. -/
theorem iterate_prev_adv {σ : Type} (adv prev : σ → σ)
    (h : ∀ x, prev (adv x) = x) :
    ∀ (j N : Nat) (x : σ), j ≤ N → prev^[j] (adv^[N] x) = adv^[N - j] x := by
  intro j
  induction j with
  | zero => intro N x _; simp
  | succ j ih =>
      intro N x hj
      have hj2 : j ≤ N := Nat.le_of_succ_le hj
      have hN : N - j = (N - (j + 1)) + 1 := by omega
      rw [Function.iterate_succ_apply', ih N x hj2, hN,
        Function.iterate_succ_apply', h]

/-- Reversing the list of `f 0, …, f (N-1)` lists the values of `f` at
`N-1, …, 0`. -/
theorem map_range_reverse {α : Type} (f : Nat → α) (N : Nat) :
    ((List.range N).map f).reverse
      = (List.range N).map (fun j => f (N - 1 - j)) := by
  induction N with
  | zero => rfl
  | succ N ih =>
      have hL : ((List.range (N + 1)).map f).reverse
          = f N :: ((List.range N).map f).reverse := by
        rw [List.range_succ]; simp
      have hR : (List.range (N + 1)).map (fun j => f (N + 1 - 1 - j))
          = f N :: (List.range N).map (fun j => f (N - 1 - j)) := by
        rw [List.range_succ_eq_map, List.map_cons, List.map_map]
        refine congrArg₂ _ (by simp) ?_
        refine List.map_congr_left (fun a _ => ?_)
        show f (N + 1 - 1 - (a + 1)) = f (N - 1 - a)
        exact congrArg f (by omega)
      rw [hL, ih, ← hR]

/-- Membership in the row-major enumeration is exactly validity of the
multi-index. -/
theorem mem_row_enum :
    ∀ (s : shape_t) (p : List Nat),
      p ∈ row_enum s ↔ is_valid_index s p = true := by
  intro s
  induction s with
  | nil => intro p; cases p <;> simp [row_enum, is_valid_index]
  | cons n s ih =>
      intro p
      cases p with
      | nil => simp [row_enum, is_valid_index]
      | cons i p =>
          simp [row_enum, is_valid_index, ih]

/-- Membership in the column-major enumeration is exactly validity of
the multi-index. -/
theorem mem_col_enum :
    ∀ (s : shape_t) (p : List Nat),
      p ∈ col_enum s ↔ is_valid_index s p = true := by
  intro s
  induction s with
  | nil => intro p; cases p <;> simp [col_enum, is_valid_index]
  | cons n s ih =>
      intro p
      cases p with
      | nil => simp [col_enum, is_valid_index]
      | cons i p =>
          simp [col_enum, is_valid_index, ih]
          constructor
          · rintro ⟨a, ha, b, hb, rfl, rfl⟩
            exact ⟨hb, ha⟩
          · rintro ⟨hi, hp⟩
            exact ⟨p, hp, i, hi, rfl, rfl⟩

/-- The row-major enumeration lists each position at most once. -/
theorem nodup_row_enum : ∀ s : shape_t, (row_enum s).Nodup := by
  intro s
  induction s with
  | nil => simp [row_enum]
  | cons n s ih =>
      rw [row_enum, List.nodup_flatMap]
      refine ⟨fun i _ => ih.map (fun a b hab => by simpa using hab), ?_⟩
      refine (List.nodup_range n).imp (fun {a b} hab => ?_)
      intro p hpa hpb
      rcases List.mem_map.1 hpa with ⟨x, _, rfl⟩
      rcases List.mem_map.1 hpb with ⟨y, _, hy⟩
      exact hab (List.cons.injEq _ _ _ _ ▸ hy).1.symm

/-- The column-major enumeration lists each position at most once. -/
theorem nodup_col_enum : ∀ s : shape_t, (col_enum s).Nodup := by
  intro s
  induction s with
  | nil => simp [col_enum]
  | cons n s ih =>
      rw [col_enum, List.nodup_flatMap]
      refine ⟨fun p _ => (List.nodup_range n).map
        (fun a b hab => by simpa using hab), ?_⟩
      refine ih.imp (fun {a b} hab => ?_)
      intro p hpa hpb
      rcases List.mem_map.1 hpa with ⟨x, _, rfl⟩
      rcases List.mem_map.1 hpb with ⟨y, _, hy⟩
      exact hab (List.cons.injEq _ _ _ _ ▸ hy).2.symm

/-- Membership in the layout enumeration is exactly validity of the
multi-index, for every layout. -/
theorem mem_layout_enum (s : shape_t) (L : layout_type) (p : List Nat) :
    p ∈ layout_enum s L ↔ is_valid_index s p = true := by
  cases L with
  | row_major => exact mem_row_enum s p
  | column_major => exact mem_col_enum s p

/-- The layout enumeration lists each position at most once, for every
layout. -/
theorem nodup_layout_enum (s : shape_t) (L : layout_type) :
    (layout_enum s L).Nodup := by
  cases L with
  | row_major => exact nodup_row_enum s
  | column_major => exact nodup_col_enum s

/-- Traversing from a `k`-times-advanced iterator yields the suffix of
the traversal from the original iterator: an advanced copy's sequence is
a pure function of its own value. -/
theorem traverse_shift {σ α : Type} {L : layout_type} (adv : σ → σ)
    (deref : σ → α) (k n : Nat) (it : xiterator σ L) :
    traverse adv deref n ((iter_adv adv)^[k] it)
      = (traverse adv deref (k + n) it).drop k := by
  rw [traverse_eq_map, traverse_eq_map, ← List.map_drop]
  have hdrop : (List.range (k + n)).drop k = (List.range n).map (k + ·) := by
    rw [List.range_add]
    exact List.drop_left' (List.length_range k)
  rw [hdrop, List.map_map, iter_adv_iterate]
  refine List.map_congr_left (fun a _ => ?_)
  show deref (adv^[a] (adv^[k] it.stepper)) = deref (adv^[k + a] it.stepper)
  rw [← Function.iterate_add_apply, Nat.add_comm]

/-- C1: for every layout `L` (and every broadcast shape `s`), the reverse
iterators are exactly the Reverse Adaptor applied to the forward iterator
at the opposite endpoint — `rbegin(L) == Reverse(end(L))` and
`rend(L) == Reverse(begin(L))` under iterator equality — for the const
(`crbegin`, `crend`), mutable, and broadcast-shape variants alike; and
the wrapped forward iterator's stepper is always obtained from the
forward factories `stepper_end` resp. `stepper_begin` at the opposite
endpoint, never from a dedicated reverse stepper factory (the container
contract has no such factory). -/
theorem c1_reverse_is_adaptor_at_opposite_endpoint {σ cσ : Type}
    (d : container σ cσ) (L : layout_type) (s : shape_t) :
    rev_eq (xconst_iterable.rbegin d L)
      (mk_reverse (xconst_iterable.«end» d L))
    ∧ rev_eq (xconst_iterable.rend d L)
      (mk_reverse (xconst_iterable.begin d L))
    ∧ rev_eq (xconst_iterable.crbegin d L)
      (mk_reverse (xconst_iterable.cend d L))
    ∧ rev_eq (xconst_iterable.crend d L)
      (mk_reverse (xconst_iterable.cbegin d L))
    ∧ rev_eq (xiterable.rbegin d L) (mk_reverse (xiterable.«end» d L))
    ∧ rev_eq (xiterable.rend d L) (mk_reverse (xiterable.begin d L))
    ∧ rev_eq (xconst_iterable.rbegin_s d s L)
      (mk_reverse (xconst_iterable.end_s d s L))
    ∧ rev_eq (xconst_iterable.rend_s d s L)
      (mk_reverse (xconst_iterable.begin_s d s L))
    ∧ rev_eq (xconst_iterable.crbegin_s d s L)
      (mk_reverse (xconst_iterable.cend_s d s L))
    ∧ rev_eq (xconst_iterable.crend_s d s L)
      (mk_reverse (xconst_iterable.cbegin_s d s L))
    ∧ rev_eq (xiterable.rbegin_s d s L) (mk_reverse (xiterable.end_s d s L))
    ∧ rev_eq (xiterable.rend_s d s L) (mk_reverse (xiterable.begin_s d s L))
    ∧ (xconst_iterable.crbegin d L).base.stepper = d.cstepper_end d.shape L
    ∧ (xconst_iterable.crend d L).base.stepper = d.cstepper_begin d.shape
    ∧ (xiterable.rbegin d L).base.stepper = d.stepper_end d.shape L
    ∧ (xiterable.rend d L).base.stepper = d.stepper_begin d.shape
    ∧ (xconst_iterable.crbegin_s d s L).base.stepper = d.cstepper_end s L
    ∧ (xconst_iterable.crend_s d s L).base.stepper = d.cstepper_begin s
    ∧ (xiterable.rbegin_s d s L).base.stepper = d.stepper_end s L
    ∧ (xiterable.rend_s d s L).base.stepper = d.stepper_begin s :=
  ⟨⟨rfl, rfl⟩, ⟨rfl, rfl⟩, ⟨rfl, rfl⟩, ⟨rfl, rfl⟩, ⟨rfl, rfl⟩, ⟨rfl, rfl⟩,
    ⟨rfl, rfl⟩, ⟨rfl, rfl⟩, ⟨rfl, rfl⟩, ⟨rfl, rfl⟩, ⟨rfl, rfl⟩, ⟨rfl, rfl⟩,
    rfl, rfl, rfl, rfl, rfl, rfl, rfl, rfl⟩

/-- C6: for every layout `L`, each storage-order entry point — in both
the const and the mutable capability — returns the very iterator
returned by the corresponding default entry point under the same layout;
the `storage_` surface introduces no distinct traversal. -/
theorem c6_storage_entry_points_alias_defaults {σ cσ : Type}
    (d : container σ cσ) (L : layout_type) :
    xconst_iterable.storage_begin d L = xconst_iterable.begin d L
    ∧ xconst_iterable.storage_end d L = xconst_iterable.«end» d L
    ∧ xconst_iterable.storage_cbegin d L = xconst_iterable.cbegin d L
    ∧ xconst_iterable.storage_cend d L = xconst_iterable.cend d L
    ∧ xconst_iterable.storage_rbegin d L = xconst_iterable.rbegin d L
    ∧ xconst_iterable.storage_rend d L = xconst_iterable.rend d L
    ∧ xconst_iterable.storage_crbegin d L = xconst_iterable.crbegin d L
    ∧ xconst_iterable.storage_crend d L = xconst_iterable.crend d L
    ∧ xiterable.storage_begin d L = xiterable.begin d L
    ∧ xiterable.storage_end d L = xiterable.«end» d L
    ∧ xiterable.storage_rbegin d L = xiterable.rbegin d L
    ∧ xiterable.storage_rend d L = xiterable.rend d L :=
  ⟨rfl, rfl, rfl, rfl, rfl, rfl, rfl, rfl, rfl, rfl, rfl, rfl⟩

/-- C9: iterator state is value-like and unshared.  Every call to
`begin(L)` freshly rebuilds the iterator from the factory at the first
element (stepper equal to `stepper_begin(shape)`, direction flag
`false`), two successive calls return identical iterators with identical
traversal sequences, and the sequence yielded by an iterator copy
advanced `k` times is determined by its own value alone — it is the
`k`-suffix of the original traversal, so advancing one copy cannot
change the sequence of any other. -/
theorem c9_begin_reentrancy_value_semantics {σ cσ α : Type}
    (d : container σ cσ) (L : layout_type) (adv : cσ → cσ) (deref : cσ → α)
    (madv : σ → σ) (mderef : σ → α) (k n : Nat) :
    (xconst_iterable.begin d L).stepper = d.cstepper_begin d.shape
    ∧ (xconst_iterable.begin d L).shape = d.shape
    ∧ (xconst_iterable.begin d L).reverse = false
    ∧ (xiterable.begin d L).stepper = d.stepper_begin d.shape
    ∧ (xiterable.begin d L).shape = d.shape
    ∧ (xiterable.begin d L).reverse = false
    ∧ xconst_iterable.begin d L = xconst_iterable.begin d L
    ∧ traverse adv deref n (xconst_iterable.begin d L)
        = traverse adv deref n (xconst_iterable.begin d L)
    ∧ traverse adv deref n ((iter_adv adv)^[k] (xconst_iterable.begin d L))
        = (traverse adv deref (k + n) (xconst_iterable.begin d L)).drop k
    ∧ traverse madv mderef n ((iter_adv madv)^[k] (xiterable.begin d L))
        = (traverse madv mderef (k + n) (xiterable.begin d L)).drop k :=
  ⟨rfl, rfl, rfl, rfl, rfl, rfl, rfl, rfl,
    traverse_shift adv deref k n (xconst_iterable.begin d L),
    traverse_shift madv mderef k n (xiterable.begin d L)⟩

/-- C10: every begin-side entry point obtains its stepper by calling the
collaborator's `stepper_begin` with the shape only — the layout is never
passed to `stepper_begin` (the factory receives a single shape argument;
only `stepper_end` receives the layout) — so for any two layouts over
the same shape the begin iterators hold equal steppers, equal driving
shapes and equal direction flags, differing only in the layout baked
into the iterator's type. -/
theorem c10_stepper_begin_receives_shape_only {σ cσ : Type}
    (d : container σ cσ) (L1 L2 : layout_type) (s : shape_t) :
    (xconst_iterable.cbegin d L1).stepper = (xconst_iterable.cbegin d L2).stepper
    ∧ (xconst_iterable.begin d L1).stepper = (xconst_iterable.begin d L2).stepper
    ∧ (xiterable.begin d L1).stepper = (xiterable.begin d L2).stepper
    ∧ (xconst_iterable.cbegin_s d s L1).stepper
        = (xconst_iterable.cbegin_s d s L2).stepper
    ∧ (xconst_iterable.begin_s d s L1).stepper
        = (xconst_iterable.begin_s d s L2).stepper
    ∧ (xiterable.begin_s d s L1).stepper = (xiterable.begin_s d s L2).stepper
    ∧ (xconst_iterable.cbegin d L1).stepper = d.cstepper_begin d.shape
    ∧ (xiterable.begin d L1).stepper = d.stepper_begin d.shape
    ∧ (xconst_iterable.cbegin_s d s L1).stepper = d.cstepper_begin s
    ∧ (xiterable.begin_s d s L1).stepper = d.stepper_begin s
    ∧ (xconst_iterable.cbegin d L1).shape = (xconst_iterable.cbegin d L2).shape
    ∧ (xconst_iterable.cbegin d L1).reverse
        = (xconst_iterable.cbegin d L2).reverse
    ∧ (xiterable.begin d L1).shape = (xiterable.begin d L2).shape
    ∧ (xiterable.begin d L1).reverse = (xiterable.begin d L2).reverse :=
  ⟨rfl, rfl, rfl, rfl, rfl, rfl, rfl, rfl, rfl, rfl, rfl, rfl, rfl, rfl⟩

/-- C2: for every container whose shape has element count `N` and every
layout `L`, under the Stepper contract of spec section 4.3 taken as
hypotheses (the stepper advance reaches the end stepper after `N` steps,
stepper equality holds only at equal advance counts, and the stepper
positions follow the layout order), exactly `N` single-step advances
take `begin(L)` to an iterator equal to `end(L)` — no fewer suffice —
and the `N` dereferenced positions along the way are the layout-`L`
enumeration of the shape, which visits every logical position exactly
once. -/
theorem c2_begin_end_count_and_order {σ cσ : Type} (d : container σ cσ)
    (L : layout_type) (adv : cσ → cσ) (pos : cσ → List Nat) (N : Nat)
    (hN : N = num_elements d.shape)
    (hreach : adv^[N] (d.cstepper_begin d.shape) = d.cstepper_end d.shape L)
    (hinj : ∀ i ≤ N, ∀ j ≤ N,
      adv^[i] (d.cstepper_begin d.shape) = adv^[j] (d.cstepper_begin d.shape)
        → i = j)
    (horder :
      (List.range N).map (fun i => pos (adv^[i] (d.cstepper_begin d.shape)))
        = layout_enum d.shape L) :
    iter_eq ((iter_adv adv)^[N] (xconst_iterable.begin d L))
      (xconst_iterable.«end» d L)
    ∧ (∀ k < N, ¬ iter_eq ((iter_adv adv)^[k] (xconst_iterable.begin d L))
        (xconst_iterable.«end» d L))
    ∧ traverse adv pos N (xconst_iterable.begin d L) = layout_enum d.shape L
    ∧ (layout_enum d.shape L).Nodup
    ∧ (∀ p, p ∈ layout_enum d.shape L ↔ is_valid_index d.shape p = true) := by
  refine ⟨?_, ?_, ?_, nodup_layout_enum d.shape L,
    fun p => mem_layout_enum d.shape L p⟩
  · rw [iter_adv_iterate]
    exact ⟨hreach, rfl⟩
  · intro k hk h
    obtain ⟨hst, -⟩ := h
    rw [iter_adv_iterate] at hst
    have h2 : adv^[k] (d.cstepper_begin d.shape)
        = adv^[N] (d.cstepper_begin d.shape) :=
      hst.trans hreach.symm
    exact Nat.ne_of_lt hk (hinj k (Nat.le_of_lt hk) N le_rfl h2)
  · rw [traverse_eq_map]
    exact horder

/-- C2 witness: the count and order law instantiated at the concrete
2-by-3 container `cEx` under row-major layout, with counting steppers. -/
theorem c2_begin_end_count_and_order_witness :
    (6 = num_elements cEx.shape)
    ∧ (Nat.succ^[6] (cEx.cstepper_begin cEx.shape)
        = cEx.cstepper_end cEx.shape layout_type.row_major)
    ∧ iter_eq
        ((iter_adv Nat.succ)^[6] (xconst_iterable.begin cEx layout_type.row_major))
        (xconst_iterable.«end» cEx layout_type.row_major)
    ∧ ¬ iter_eq
        ((iter_adv Nat.succ)^[3] (xconst_iterable.begin cEx layout_type.row_major))
        (xconst_iterable.«end» cEx layout_type.row_major)
    ∧ traverse Nat.succ pos23 6 (xconst_iterable.begin cEx layout_type.row_major)
        = layout_enum cEx.shape layout_type.row_major
    ∧ (layout_enum cEx.shape layout_type.row_major).Nodup
    ∧ ([1, 2] ∈ layout_enum cEx.shape layout_type.row_major
        ↔ is_valid_index cEx.shape [1, 2] = true) := by
  have h := c2_begin_end_count_and_order cEx layout_type.row_major Nat.succ
    pos23 6 (by decide) (by decide) (by decide) (by decide)
  exact ⟨by decide, by decide, h.1, h.2.1 3 (by decide), h.2.2.1, h.2.2.2.1,
    h.2.2.2.2 [1, 2]⟩

/-- C3: for every container and every layout `L`, under the Stepper
contract taken as hypotheses (the stepper decrement undoes the advance,
and `N` advances from the begin stepper reach the end stepper, `N` the
element count), the sequence of elements yielded by traversing from
`rbegin(L)` until equality with `rend(L)` — reached after exactly the
same `N` steps — is the reverse of the sequence yielded by traversing
from `begin(L)` until equality with `end(L)`. -/
theorem c3_reverse_traversal_yields_reverse_sequence {σ cσ α : Type}
    (d : container σ cσ) (L : layout_type) (adv prev : cσ → cσ)
    (deref : cσ → α) (N : Nat)
    (hN : N = num_elements d.shape)
    (hprev : ∀ x, prev (adv x) = x)
    (hreach : adv^[N] (d.cstepper_begin d.shape) = d.cstepper_end d.shape L) :
    rev_traverse prev deref N (xconst_iterable.rbegin d L)
      = (traverse adv deref N (xconst_iterable.begin d L)).reverse
    ∧ rev_eq ((rev_adv prev)^[N] (xconst_iterable.rbegin d L))
        (xconst_iterable.rend d L) := by
  constructor
  · rw [rev_traverse_eq_map, traverse_eq_map, map_range_reverse]
    refine List.map_congr_left (fun i hi => ?_)
    have hi2 : i < N := List.mem_range.mp hi
    show deref (prev (prev^[i] (d.cstepper_end d.shape L)))
      = deref (adv^[N - 1 - i] (d.cstepper_begin d.shape))
    rw [← hreach,
      iterate_prev_adv adv prev hprev i N (d.cstepper_begin d.shape)
        (Nat.le_of_lt hi2),
      show N - i = (N - 1 - i) + 1 by omega,
      Function.iterate_succ_apply', hprev]
  · rw [rev_adv_iterate]
    refine ⟨?_, rfl⟩
    show prev^[N] (d.cstepper_end d.shape L) = d.cstepper_begin d.shape
    rw [← hreach,
      iterate_prev_adv adv prev hprev N N (d.cstepper_begin d.shape) le_rfl,
      Nat.sub_self, Function.iterate_zero_apply]

/-- C3 witness: reverse-equals-reversed-forward instantiated at the
concrete 2-by-3 container `cEx` under row-major layout, with counting
steppers advanced by successor and decremented by predecessor. -/
theorem c3_reverse_traversal_yields_reverse_sequence_witness :
    (6 = num_elements cEx.shape)
    ∧ (Nat.succ^[6] (cEx.cstepper_begin cEx.shape)
        = cEx.cstepper_end cEx.shape layout_type.row_major)
    ∧ rev_traverse Nat.pred pos23 6
        (xconst_iterable.rbegin cEx layout_type.row_major)
      = (traverse Nat.succ pos23 6
          (xconst_iterable.begin cEx layout_type.row_major)).reverse
    ∧ rev_eq
        ((rev_adv Nat.pred)^[6] (xconst_iterable.rbegin cEx layout_type.row_major))
        (xconst_iterable.rend cEx layout_type.row_major) := by
  have h := c3_reverse_traversal_yields_reverse_sequence cEx
    layout_type.row_major Nat.succ Nat.pred pos23 6 (by decide)
    (fun x => rfl) (by decide)
  exact ⟨by decide, by decide, h.1, h.2⟩

/-- C5: on the same unmutated container and the same (shape, layout),
the const entry points and the begin/end entry points produce the same
traversals.  On the const side `begin()`/`end()` return exactly
`cbegin()`/`cend()`.  The mutable `begin()` builds its iterator over the
same shape, layout and direction flag from the mutable stepper factory;
under the hypothesis that the container's mutable and const steppers
correspond (same start, advancement preserved, same dereferenced
observation — `obs` can be instantiated with the element value or the
logical position), the mutable and const traversals yield the same
sequence.  Mutability of the dereferenced result is a type-level
distinction in the C++ sources and does not enter the sequences. -/
theorem c5_const_and_mutable_traversals_agree {σ cσ α : Type}
    (d : container σ cσ) (L : layout_type) (madv : σ → σ) (adv : cσ → cσ)
    (mobs : σ → α) (obs : cσ → α) (R : σ → cσ → Prop) (n : Nat)
    (h0 : R (d.stepper_begin d.shape) (d.cstepper_begin d.shape))
    (hstep : ∀ s t, R s t → R (madv s) (adv t))
    (hobs : ∀ s t, R s t → mobs s = obs t) :
    xconst_iterable.begin d L = xconst_iterable.cbegin d L
    ∧ xconst_iterable.«end» d L = xconst_iterable.cend d L
    ∧ (xiterable.begin d L).shape = (xconst_iterable.cbegin d L).shape
    ∧ (xiterable.begin d L).reverse = (xconst_iterable.cbegin d L).reverse
    ∧ traverse madv mobs n (xiterable.begin d L)
        = traverse adv obs n (xconst_iterable.cbegin d L) := by
  refine ⟨rfl, rfl, rfl, rfl, ?_⟩
  rw [traverse_eq_map, traverse_eq_map]
  refine List.map_congr_left (fun i _ => ?_)
  have hR : ∀ i : Nat,
      R (madv^[i] (d.stepper_begin d.shape))
        (adv^[i] (d.cstepper_begin d.shape)) := by
    intro i
    induction i with
    | zero => exact h0
    | succ i ih =>
        rw [Function.iterate_succ_apply', Function.iterate_succ_apply']
        exact hstep _ _ ih
  exact hobs _ _ (hR i)

/-- C5 witness: const and mutable traversals agree on the concrete
2-by-3 container `cEx`, whose mutable and const steppers are both
counting steppers (related by equality). -/
theorem c5_const_and_mutable_traversals_agree_witness :
    (cEx.stepper_begin cEx.shape = cEx.cstepper_begin cEx.shape)
    ∧ xconst_iterable.begin cEx layout_type.row_major
        = xconst_iterable.cbegin cEx layout_type.row_major
    ∧ xconst_iterable.«end» cEx layout_type.row_major
        = xconst_iterable.cend cEx layout_type.row_major
    ∧ (xiterable.begin cEx layout_type.row_major).shape
        = (xconst_iterable.cbegin cEx layout_type.row_major).shape
    ∧ (xiterable.begin cEx layout_type.row_major).reverse
        = (xconst_iterable.cbegin cEx layout_type.row_major).reverse
    ∧ traverse Nat.succ pos23 6 (xiterable.begin cEx layout_type.row_major)
        = traverse Nat.succ pos23 6
            (xconst_iterable.cbegin cEx layout_type.row_major) := by
  have h := c5_const_and_mutable_traversals_agree cEx layout_type.row_major
    Nat.succ Nat.succ pos23 pos23 (fun s t => s = t) 6 rfl
    (fun s t hst => congrArg Nat.succ hst) (fun s t hst => congrArg pos23 hst)
  exact ⟨rfl, h.1, h.2.1, h.2.2.1, h.2.2.2.1, h.2.2.2.2⟩

/-- C7: for every caller-supplied broadcast shape with element count `M`
and every layout `L`, under the Stepper factory contract for that shape
taken as hypotheses, traversing from `begin(shape)` until equality with
`end(shape)` takes exactly `M` single-step advances — no fewer suffice —
so exactly `M` positions are visited. -/
theorem c7_broadcast_traversal_count {σ cσ : Type} (d : container σ cσ)
    (s : shape_t) (L : layout_type) (adv : cσ → cσ) (M : Nat)
    (hM : M = num_elements s)
    (hreach : adv^[M] (d.cstepper_begin s) = d.cstepper_end s L)
    (hinj : ∀ i ≤ M, ∀ j ≤ M,
      adv^[i] (d.cstepper_begin s) = adv^[j] (d.cstepper_begin s) → i = j) :
    iter_eq ((iter_adv adv)^[M] (xconst_iterable.begin_s d s L))
      (xconst_iterable.end_s d s L)
    ∧ ∀ k < M, ¬ iter_eq ((iter_adv adv)^[k] (xconst_iterable.begin_s d s L))
        (xconst_iterable.end_s d s L) := by
  constructor
  · rw [iter_adv_iterate]
    exact ⟨hreach, rfl⟩
  · intro k hk h
    obtain ⟨hst, -⟩ := h
    rw [iter_adv_iterate] at hst
    have h2 : adv^[k] (d.cstepper_begin s) = adv^[M] (d.cstepper_begin s) :=
      hst.trans hreach.symm
    exact Nat.ne_of_lt hk (hinj k (Nat.le_of_lt hk) M le_rfl h2)

/-- C7 witness: the broadcast count law on the container `cEx` driven by
the caller-supplied shape `[4]` (element count 4). -/
theorem c7_broadcast_traversal_count_witness :
    (4 = num_elements [4])
    ∧ (Nat.succ^[4] (cEx.cstepper_begin [4])
        = cEx.cstepper_end [4] layout_type.row_major)
    ∧ iter_eq
        ((iter_adv Nat.succ)^[4]
          (xconst_iterable.begin_s cEx [4] layout_type.row_major))
        (xconst_iterable.end_s cEx [4] layout_type.row_major)
    ∧ ¬ iter_eq
        ((iter_adv Nat.succ)^[2]
          (xconst_iterable.begin_s cEx [4] layout_type.row_major))
        (xconst_iterable.end_s cEx [4] layout_type.row_major) := by
  have h := c7_broadcast_traversal_count cEx [4] layout_type.row_major
    Nat.succ 4 (by decide) (by decide) (by decide)
  exact ⟨by decide, by decide, h.1, h.2 2 (by decide)⟩

/-- C8: no capability entry point validates anything or can fail: each
one is a total function that unconditionally forwards to the stepper
factory (its iterator's stepper is the factory output for the requested
shape and, on the end side, layout), and the broadcast entry points
perform no compatibility check against the container's own shape — two
containers with the same factories but different own shapes yield
identical broadcast iterators for every supplied shape. -/
theorem c8_no_validation_unconditional_forwarding {σ cσ : Type}
    (d d2 : container σ cσ) (s : shape_t) (L : layout_type)
    (hcb : d.cstepper_begin = d2.cstepper_begin)
    (hce : d.cstepper_end = d2.cstepper_end)
    (hmb : d.stepper_begin = d2.stepper_begin)
    (hme : d.stepper_end = d2.stepper_end) :
    (xconst_iterable.cbegin d L).stepper = d.cstepper_begin d.shape
    ∧ (xconst_iterable.cend d L).stepper = d.cstepper_end d.shape L
    ∧ (xconst_iterable.crbegin d L).base.stepper = d.cstepper_end d.shape L
    ∧ (xconst_iterable.crend d L).base.stepper = d.cstepper_begin d.shape
    ∧ (xiterable.begin d L).stepper = d.stepper_begin d.shape
    ∧ (xiterable.«end» d L).stepper = d.stepper_end d.shape L
    ∧ (xconst_iterable.cbegin_s d s L).stepper = d.cstepper_begin s
    ∧ (xconst_iterable.cend_s d s L).stepper = d.cstepper_end s L
    ∧ (xiterable.begin_s d s L).stepper = d.stepper_begin s
    ∧ (xiterable.end_s d s L).stepper = d.stepper_end s L
    ∧ xconst_iterable.begin_s d s L = xconst_iterable.begin_s d2 s L
    ∧ xconst_iterable.end_s d s L = xconst_iterable.end_s d2 s L
    ∧ xconst_iterable.cbegin_s d s L = xconst_iterable.cbegin_s d2 s L
    ∧ xconst_iterable.cend_s d s L = xconst_iterable.cend_s d2 s L
    ∧ xconst_iterable.rbegin_s d s L = xconst_iterable.rbegin_s d2 s L
    ∧ xconst_iterable.rend_s d s L = xconst_iterable.rend_s d2 s L
    ∧ xconst_iterable.crbegin_s d s L = xconst_iterable.crbegin_s d2 s L
    ∧ xconst_iterable.crend_s d s L = xconst_iterable.crend_s d2 s L
    ∧ xiterable.begin_s d s L = xiterable.begin_s d2 s L
    ∧ xiterable.end_s d s L = xiterable.end_s d2 s L
    ∧ xiterable.rbegin_s d s L = xiterable.rbegin_s d2 s L
    ∧ xiterable.rend_s d s L = xiterable.rend_s d2 s L := by
  refine ⟨rfl, rfl, rfl, rfl, rfl, rfl, rfl, rfl, rfl, rfl,
    ?_, ?_, ?_, ?_, ?_, ?_, ?_, ?_, ?_, ?_, ?_, ?_⟩
  all_goals
    simp only [xconst_iterable.begin_s, xconst_iterable.end_s,
      xconst_iterable.cbegin_s, xconst_iterable.cend_s,
      xconst_iterable.rbegin_s, xconst_iterable.rend_s,
      xconst_iterable.crbegin_s, xconst_iterable.crend_s,
      xconst_iterable.get_cbegin_s, xconst_iterable.get_cend_s,
      xconst_iterable.get_stepper_begin, xconst_iterable.get_stepper_end,
      xiterable.begin_s, xiterable.end_s, xiterable.rbegin_s,
      xiterable.rend_s, xiterable.get_begin_s, xiterable.get_end_s,
      xiterable.get_stepper_begin, xiterable.get_stepper_end,
      mk_reverse, hcb, hce, hmb, hme]

/-- C8 witness: the containers `cEx` and `cEx2` share factories but have
different own shapes (`[2, 3]` vs `[7]`); broadcast iteration over the
shape `[4, 5]` is identical on both, and the forwarding equations hold
at this instance. -/
theorem c8_no_validation_unconditional_forwarding_witness :
    (cEx.cstepper_begin = cEx2.cstepper_begin)
    ∧ (cEx.shape ≠ cEx2.shape)
    ∧ (xconst_iterable.cbegin_s cEx [4, 5] layout_type.row_major).stepper
        = cEx.cstepper_begin [4, 5]
    ∧ xconst_iterable.begin_s cEx [4, 5] layout_type.row_major
        = xconst_iterable.begin_s cEx2 [4, 5] layout_type.row_major
    ∧ xconst_iterable.crbegin_s cEx [4, 5] layout_type.row_major
        = xconst_iterable.crbegin_s cEx2 [4, 5] layout_type.row_major
    ∧ xiterable.rend_s cEx [4, 5] layout_type.row_major
        = xiterable.rend_s cEx2 [4, 5] layout_type.row_major := by
  have h := c8_no_validation_unconditional_forwarding cEx cEx2 [4, 5]
    layout_type.row_major rfl rfl rfl rfl
  exact ⟨rfl, by decide, h.2.2.2.2.2.2.1, h.2.2.2.2.2.2.2.2.2.2.1,
    h.2.2.2.2.2.2.2.2.2.2.2.2.2.2.2.2.1,
    h.2.2.2.2.2.2.2.2.2.2.2.2.2.2.2.2.2.2.2.2.2⟩

end xt
